import Mathlib

set_option autoImplicit false

/-!
Verification of the SIP proxy network filter (sip_proxy extension):
a shallow embedding of the connection manager, router, transaction
tables and message metadata from
source/extensions/filters/network/sip_proxy, together with proofs of
the specified properties.  C++ strings are modelled as Lean String (or
List Char where character-level reasoning is needed), the hash maps as
association lists with C++ emplace semantics (insert only if the key
is absent), stat counters as naturals, and side effects (downstream
writes, closes, reset callbacks, timer re-arming) as explicit event
traces returned by the modelled functions.
-/

namespace SipProxy

/-- FilterStatus from decoder_events.h: result of one decoder-filter stage. -/
inductive FilterStatus
  | Continue
  | StopIteration
  deriving DecidableEq

/-- SIP request method kinds used by the connection manager. -/
inductive MethodType
  | Invite
  | Ack
  | Bye
  | Cancel
  | Register
  | Options
  deriving DecidableEq

/-- Network::Connection::State of the downstream connection. -/
inductive ConnState
  | Open
  | Closing
  | Closed
  deriving DecidableEq

/-- Network::ConnectionCloseType used when closing the downstream connection. -/
inductive CloseType
  | FlushWrite
  | NoFlush
  deriving DecidableEq

/-- Association-list lookup, modelling map::at / map::find on the C++ maps
(first entry with the given key; maps keep keys unique). -/
def alookup {α β : Type} [DecidableEq α] : List (α × β) → α → Option β
  | [], _ => none
  | (k, v) :: rest, key => if k = key then some v else alookup rest key

/-- C++ map::emplace semantics: insert the pair only when the key is absent;
an existing entry for the key is left untouched. -/
def emplaceKV {α β : Type} [DecidableEq α] (m : List (α × β)) (kv : α × β) :
    List (α × β) :=
  match alookup m kv.1 with
  | some _ => m
  | none => m ++ [kv]

theorem alookup_append_left {α β : Type} [DecidableEq α] (m l : List (α × β)) (k : α) (v : β)
    (h : alookup m k = some v) : alookup (m ++ l) k = some v := by
  induction m with
  | nil => simp [alookup] at h
  | cons hd tl ih =>
    obtain ⟨hk, hv⟩ := hd
    by_cases hkk : hk = k
    · simpa [alookup, hkk] using h
    · simp only [alookup, hkk, if_neg, List.cons_append] at h ⊢
      exact ih h

theorem alookup_append_self {α β : Type} [DecidableEq α] (m : List (α × β)) (k : α) (v : β)
    (h : alookup m k = none) : alookup (m ++ [(k, v)]) k = some v := by
  induction m with
  | nil => simp [alookup]
  | cons hd tl ih =>
    obtain ⟨hk, hv⟩ := hd
    by_cases hkk : hk = k
    · simp [alookup, hkk] at h
    · simp only [alookup, hkk, if_neg, List.cons_append] at h ⊢
      exact ih h

theorem alookup_emplace_preserve {α β : Type} [DecidableEq α] (m : List (α × β))
    (kv : α × β) (k : α) (v : β) (h : alookup m k = some v) :
    alookup (emplaceKV m kv) k = some v := by
  unfold emplaceKV
  cases hl : alookup m kv.1 with
  | some w => exact h
  | none => exact alookup_append_left m [kv] k v h

theorem alookup_emplace_self {α β : Type} [DecidableEq α] (m : List (α × β)) (kv : α × β) :
    (alookup (emplaceKV m kv) kv.1).isSome := by
  unfold emplaceKV
  cases hl : alookup m kv.1 with
  | some w => simp [hl]
  | none =>
    obtain ⟨k, v⟩ := kv
    rw [alookup_append_self m k v hl]
    rfl

/-! ## C1: Router::shouldSelectAnotherHost (router_impl.h) -/

/-- Router::shouldSelectAnotherHost from router_impl.h, verbatim: when the
metadata destination is non-empty it returns false at once; otherwise it
returns whether the host address string differs from the (empty) destination. -/
def shouldSelectAnotherHost (dest hostAddr : String) : Bool :=
  if !dest.isEmpty then
    false
  else
    hostAddr != dest

/-- Modelled from the spec: the intended predicate for shouldSelectAnotherHost
(spec sections 4.4 and 9a) — reject exactly those hosts whose address differs
from a non-empty destination, so the load balancer is pinned to the affinity
host. -/
def intendedShouldSelectAnotherHost (dest hostAddr : String) : Bool :=
  !dest.isEmpty && hostAddr != dest

/-- Claim C1: with metadata destination set to 10.0.0.7, the code accepts a
non-matching host 10.0.0.8 (returns false where the claimed pinning behaviour
requires true), and generally returns false for every host once the
destination is non-empty — the inverted-guard bug the spec flags in section 9a.
Evaluation of the code model at the failing input, against the intended
predicate. -/
theorem shouldSelectAnotherHost_bug_eval :
    shouldSelectAnotherHost "10.0.0.7" "10.0.0.8" = false ∧
    intendedShouldSelectAnotherHost "10.0.0.7" "10.0.0.8" = true ∧
    shouldSelectAnotherHost "10.0.0.7" "10.0.0.7" = false ∧
    shouldSelectAnotherHost "" "10.0.0.5" = true := by decide

/-! ## C2: ConnectionManager::newDecoderEventHandler (conn_manager.cc) -/

/-- The transactions map of one ConnectionManager (transaction-id key to an
ActiveTrans identity) together with the identity to give the next constructed
ActiveTrans. -/
structure CMTrans where
  transactions : List (String × Nat)
  nextId : Nat
  deriving DecidableEq

/-- Result of newDecoderEventHandler: the ActiveTrans identity returned, the
state afterwards, and whether a new ActiveTrans object was constructed
(make_unique plus createFilterChain ran). -/
structure NewHandlerResult where
  handler : Nat
  state : CMTrans
  constructedNew : Bool
  deriving DecidableEq

/-- ConnectionManager::newDecoderEventHandler from conn_manager.cc: for an ACK
whose transaction-id is already indexed, return the indexed ActiveTrans;
otherwise construct a new ActiveTrans, emplace it (which keeps any existing
entry for the key), and return the map entry at the key. -/
def newDecoderEventHandler (st : CMTrans) (method : MethodType) (transactionId : String) :
    NewHandlerResult :=
  if method = MethodType.Ack ∧ (alookup st.transactions transactionId).isSome then
    { handler := (alookup st.transactions transactionId).getD 0
      state := st
      constructedNew := false }
  else
    let m := emplaceKV st.transactions (transactionId, st.nextId)
    { handler := (alookup m transactionId).getD st.nextId
      state := { transactions := m, nextId := st.nextId + 1 }
      constructedNew := true }

/-- Claim C2 counterexample: with transaction-id t1 already indexed, a non-ACK
request (Invite) still constructs a new ActiveTrans (make_unique and
createFilterChain run unconditionally outside the ACK branch), refuting the
conjunct that a new ActiveTrans is created only when the transaction-id is not
already indexed.  The constructed object is not retained: the returned handler
is the previously indexed one and the map is unchanged. -/
theorem newDecoderEventHandler_counterexample :
    (alookup ([("t1", 0)] : List (String × Nat)) "t1").isSome = true ∧
    (newDecoderEventHandler ⟨[("t1", 0)], 1⟩ MethodType.Invite "t1").constructedNew = true ∧
    (newDecoderEventHandler ⟨[("t1", 0)], 1⟩ MethodType.Invite "t1").handler = 0 ∧
    (newDecoderEventHandler ⟨[("t1", 0)], 1⟩ MethodType.Invite "t1").state.transactions
      = [("t1", 0)] := by decide

theorem newDecoderEventHandler_handler_eq (st : CMTrans) (method : MethodType) (tid : String) :
    (newDecoderEventHandler st method tid).handler
        = (alookup st.transactions tid).getD st.nextId ∧
    alookup (newDecoderEventHandler st method tid).state.transactions tid
        = some ((newDecoderEventHandler st method tid).handler) := by
  unfold newDecoderEventHandler
  cases hl : alookup st.transactions tid with
  | some id =>
    by_cases hm : method = MethodType.Ack
    · simp [hm, hl]
    · simp [hm, emplaceKV, hl]
  | none =>
    have h2 := alookup_append_self st.transactions tid st.nextId hl
    simp [hl, emplaceKV, h2]

/-- Claim C2 as amended: two requests with the same transaction-id return the
same ActiveTrans identity (second call on the state the first produced); an
ACK on an indexed id reuses it without constructing anything; on an indexed id
the map is unchanged and the indexed ActiveTrans is returned (for non-ACK a
fresh ActiveTrans is constructed but not retained); a new ActiveTrans is
retained only when the id was not indexed, and then the fresh id is returned. -/
theorem newDecoderEventHandler_spec (st : CMTrans) (method method2 : MethodType)
    (tid : String) :
    ((newDecoderEventHandler (newDecoderEventHandler st method tid).state method2 tid).handler
        = (newDecoderEventHandler st method tid).handler) ∧
    (∀ id, alookup st.transactions tid = some id →
      newDecoderEventHandler st MethodType.Ack tid =
        { handler := id, state := st, constructedNew := false }) ∧
    (∀ id, alookup st.transactions tid = some id →
      (newDecoderEventHandler st method tid).state.transactions = st.transactions ∧
      (newDecoderEventHandler st method tid).handler = id) ∧
    (alookup st.transactions tid = none →
      (newDecoderEventHandler st method tid).state.transactions
          = st.transactions ++ [(tid, st.nextId)] ∧
      (newDecoderEventHandler st method tid).handler = st.nextId ∧
      (newDecoderEventHandler st method tid).constructedNew = true) := by
  refine ⟨?_, ?_, ?_, ?_⟩
  · have h1 := newDecoderEventHandler_handler_eq st method tid
    have h2 := newDecoderEventHandler_handler_eq
      (newDecoderEventHandler st method tid).state method2 tid
    rw [h2.1, h1.2]
    rfl
  · intro id hl
    unfold newDecoderEventHandler
    simp [hl]
  · intro id hl
    unfold newDecoderEventHandler
    by_cases hm : method = MethodType.Ack
    · simp [hm, hl]
    · simp only [hm, false_and, if_neg, not_false_iff]
      simp [emplaceKV, hl]
  · intro hl
    unfold newDecoderEventHandler
    simp only [hl, Option.isSome_none, Bool.false_eq_true, and_false, if_neg,
      not_false_iff]
    simp [emplaceKV, hl, alookup_append_self st.transactions tid st.nextId hl]

/-- Claim C2 witness: the amended theorem applied at concrete inputs — an ACK
on an indexed id, a non-ACK on an indexed id, and a request on a fresh id. -/
theorem newDecoderEventHandler_spec_witness :
    (newDecoderEventHandler ⟨[("t1", 0)], 1⟩ MethodType.Ack "t1" =
      { handler := 0, state := ⟨[("t1", 0)], 1⟩, constructedNew := false }) ∧
    ((newDecoderEventHandler ⟨[("t1", 0)], 1⟩ MethodType.Invite "t1").state.transactions
        = [("t1", 0)] ∧
      (newDecoderEventHandler ⟨[("t1", 0)], 1⟩ MethodType.Invite "t1").handler = 0) ∧
    ((newDecoderEventHandler ⟨[], 5⟩ MethodType.Invite "t9").state.transactions
        = [("t9", 5)] ∧
      (newDecoderEventHandler ⟨[], 5⟩ MethodType.Invite "t9").handler = 5 ∧
      (newDecoderEventHandler ⟨[], 5⟩ MethodType.Invite "t9").constructedNew = true) :=
  ⟨(newDecoderEventHandler_spec ⟨[("t1", 0)], 1⟩ MethodType.Ack MethodType.Ack "t1").2.1
      0 (by decide),
   (newDecoderEventHandler_spec ⟨[("t1", 0)], 1⟩ MethodType.Invite MethodType.Ack "t1").2.2.1
      0 (by decide),
   (newDecoderEventHandler_spec ⟨[], 5⟩ MethodType.Invite MethodType.Ack "t9").2.2.2
      (by decide)⟩

/-! ## C10: TransactionInfo::getUpstreamRequest (router_impl.h) -/

/-- The C++ map::at call: value when present, thrown out_of_range modelled as
an error otherwise. -/
def atThrow {α β : Type} [DecidableEq α] (m : List (α × β)) (k : α) : Except Unit β :=
  match alookup m k with
  | some v => Except.ok v
  | none => Except.error ()

/-- TransactionInfo::getUpstreamRequest from router_impl.h: at(host) inside a
try block; the out_of_range failure is caught and converted to nullptr (none).
The worker map is returned unchanged alongside the result. -/
def getUpstreamRequest {α : Type} (m : List (String × α)) (host : String) :
    Option α × List (String × α) :=
  match atThrow m host with
  | Except.ok v => (some v, m)
  | Except.error _ => (none, m)

/-- Claim C10: getUpstreamRequest returns none exactly when the host has no
entry (the lookup failure is caught, never propagated), returns the stored
value otherwise, and leaves the map unchanged in both cases. -/
theorem getUpstreamRequest_spec {α : Type} (m : List (String × α)) (host : String) :
    (alookup m host = none → getUpstreamRequest m host = (none, m)) ∧
    (∀ v, alookup m host = some v → getUpstreamRequest m host = (some v, m)) ∧
    (getUpstreamRequest m host).2 = m := by
  refine ⟨?_, ?_, ?_⟩
  · intro h
    simp [getUpstreamRequest, atThrow, h]
  · intro v h
    simp [getUpstreamRequest, atThrow, h]
  · unfold getUpstreamRequest atThrow
    cases alookup m host <;> simp

/-- Claim C10 witness: the theorem applied at a map holding host 10.0.0.5,
queried for an absent and for a present host. -/
theorem getUpstreamRequest_spec_witness :
    getUpstreamRequest [("10.0.0.5", 7)] "10.0.0.6" = (none, [("10.0.0.5", 7)]) ∧
    getUpstreamRequest [("10.0.0.5", 7)] "10.0.0.5" = (some 7, [("10.0.0.5", 7)]) :=
  ⟨(getUpstreamRequest_spec [("10.0.0.5", 7)] "10.0.0.6").1 (by decide),
   (getUpstreamRequest_spec [("10.0.0.5", 7)] "10.0.0.5").2.1 7 (by decide)⟩

/-! ## C8: MessageMetadata::setTransactionId (metadata.h) -/

/-- The search pattern of setTransactionId. -/
def branchPat : List Char := "branch=".toList

/-- std::string_view::find for a fixed pattern: index of the first occurrence
of pat as a contiguous substring, npos modelled as none. -/
def findSubstr (pat : List Char) : List Char → Option Nat
  | [] => if pat.isPrefixOf ([] : List Char) then some 0 else none
  | c :: t =>
    if pat.isPrefixOf (c :: t) then some 0
    else (findSubstr pat t).map (· + 1)

/-- Whether a character is one of the two separators of find_first_of. -/
def isSep (c : Char) : Bool := c == ';' || c == '>'

/-- Index of the first separator in a character list, none when absent. -/
def firstSepIdx : List Char → Option Nat
  | [] => none
  | c :: t => if isSep c then some 0 else (firstSepIdx t).map (· + 1)

/-- std::string_view::find_first_of of the two separator characters starting
at a position: first index at or after start holding a separator. -/
def findFirstOfFrom (s : List Char) (start : Nat) : Option Nat :=
  (firstSepIdx (s.drop start)).map (· + start)

/-- MessageMetadata::setTransactionId from metadata.h: find the first
occurrence of branch equals; when absent, keep the stored transaction id;
otherwise take the substring from just after the pattern up to the first
subsequent separator, or to the end of the header when none occurs. -/
def setTransactionId (transactionId : Option (List Char)) (data : List Char) :
    Option (List Char) :=
  match findSubstr branchPat data with
  | none => transactionId
  | some i =>
    let startIdx := i + branchPat.length
    let endIdx :=
      match findFirstOfFrom data startIdx with
      | none => data.length
      | some e => e
    some ((data.drop startIdx).take (endIdx - startIdx))

/-- Suffix just after the first occurrence of pat, none when pat never
occurs. -/
def splitAfterFirst (pat : List Char) : List Char → Option (List Char)
  | [] => if pat.isPrefixOf ([] : List Char) then some ([].drop pat.length) else none
  | c :: t =>
    if pat.isPrefixOf (c :: t) then some ((c :: t).drop pat.length)
    else splitAfterFirst pat t

/-- The claim's reading of setTransactionId, written independently of index
arithmetic: take the suffix just after the first occurrence of the pattern
(structural recursion) and keep its characters up to the first separator. -/
def claimedSetTransactionId (transactionId : Option (List Char)) (data : List Char) :
    Option (List Char) :=
  match splitAfterFirst branchPat data with
  | none => transactionId
  | some rest => some (rest.takeWhile (fun c => !isSep c))

theorem splitAfterFirst_eq_findSubstr (pat : List Char) (s : List Char) :
    splitAfterFirst pat s = (findSubstr pat s).map (fun i => s.drop (i + pat.length)) := by
  induction s with
  | nil =>
    unfold splitAfterFirst findSubstr
    by_cases h : pat.isPrefixOf ([] : List Char) <;> simp [h]
  | cons c t ih =>
    unfold splitAfterFirst findSubstr
    by_cases h : pat.isPrefixOf (c :: t)
    · simp [h]
    · rw [if_neg h, if_neg h, ih]
      cases hft : findSubstr pat t with
      | none => rfl
      | some i =>
        simp only [Option.map_some']
        have hidx : i + 1 + pat.length = (i + pat.length) + 1 := by omega
        rw [hidx, List.drop_succ_cons]

theorem take_firstSepIdx_eq_takeWhile (l : List Char) :
    l.take ((firstSepIdx l).getD l.length) = l.takeWhile (fun c => !isSep c) := by
  induction l with
  | nil => rfl
  | cons c t ih =>
    unfold firstSepIdx
    by_cases h : isSep c
    · simp [h, List.takeWhile_cons]
    · simp only [h, if_neg, not_false_iff, List.takeWhile_cons]
      cases hf : firstSepIdx t with
      | none =>
        simp [h, hf] at ih ⊢
        exact ih
      | some j =>
        simp [h, hf] at ih ⊢
        exact ih

theorem take_to_sep_eq_takeWhile (data : List Char) (startIdx : Nat) :
    (data.drop startIdx).take
        ((match findFirstOfFrom data startIdx with
          | none => data.length
          | some e => e) - startIdx)
      = (data.drop startIdx).takeWhile (fun c => !isSep c) := by
  unfold findFirstOfFrom
  cases hs : firstSepIdx (data.drop startIdx) with
  | none =>
    rw [← take_firstSepIdx_eq_takeWhile]
    simp [hs, List.length_drop]
  | some j =>
    rw [← take_firstSepIdx_eq_takeWhile]
    simp only [hs, Option.map_some', Option.getD_some]
    congr 1
    exact Nat.add_sub_cancel j startIdx

/-- Claim C8: for every stored id and header, setTransactionId computes
exactly the claimed value — the substring starting just after the first
occurrence of the branch pattern and ending at the first subsequent separator
or at the end of the header, leaving the stored id unchanged when the pattern
is absent. -/
theorem setTransactionId_spec (transactionId : Option (List Char)) (data : List Char) :
    setTransactionId transactionId data = claimedSetTransactionId transactionId data := by
  unfold claimedSetTransactionId
  rw [splitAfterFirst_eq_findSubstr]
  unfold setTransactionId
  cases hf : findSubstr branchPat data with
  | none => rfl
  | some i => exact congrArg some (take_to_sep_eq_takeWhile data (i + branchPat.length))

/-! ## C4: ConnectionManager::resetAllTrans and doDeferredTransDestroy
(conn_manager.cc) -/

/-- Observable connection-manager state for resetAllTrans: the keys of the
transactions map, the two destroy counters, and the trace of onReset calls
(one entry per fired ActiveTrans::onReset, carrying its transaction-id). -/
structure ResetState where
  transactions : List String
  cxDestroyLocal : Nat
  cxDestroyRemote : Nat
  resetLog : List String
  deriving DecidableEq

/-- ConnectionManager::doDeferredTransDestroy: deferred-delete the ActiveTrans
and erase its transaction-id from the transactions map. -/
def doDeferredTransDestroy (k : String) (l : List String) : List String :=
  l.filter (fun x => !(x == k))

/-- One iteration of the resetAllTrans loop on transaction k: increment the
destroy counter for the reset origin, then fire onReset, which runs
doDeferredTransDestroy and so removes k from the map. -/
def resetStep (localReset : Bool) (st : ResetState) (k : String) : ResetState :=
  { transactions := doDeferredTransDestroy k st.transactions
    cxDestroyLocal := st.cxDestroyLocal + (if localReset then 1 else 0)
    cxDestroyRemote := st.cxDestroyRemote + (if localReset then 0 else 1)
    resetLog := st.resetLog ++ [k] }

/-- ConnectionManager::resetAllTrans from conn_manager.cc: walk the
transactions map with a post-increment iterator copy, so every entry present
at entry to the loop is visited exactly once even though onReset erases it. -/
def resetAllTrans (localReset : Bool) (st : ResetState) : ResetState :=
  st.transactions.foldl (resetStep localReset) st

theorem resetAllTrans_go (localReset : Bool) (l : List String) (st : ResetState) :
    l.foldl (resetStep localReset) st =
      { transactions := st.transactions.filter (fun x => !l.contains x)
        cxDestroyLocal := st.cxDestroyLocal + (if localReset then l.length else 0)
        cxDestroyRemote := st.cxDestroyRemote + (if localReset then 0 else l.length)
        resetLog := st.resetLog ++ l } := by
  induction l generalizing st with
  | nil =>
    cases localReset <;> cases st <;> simp [List.filter_eq_self]
  | cons k rest ih =>
    rw [List.foldl_cons, ih]
    simp only [resetStep, doDeferredTransDestroy, ResetState.mk.injEq]
    refine ⟨?_, ?_, ?_, ?_⟩
    · rw [List.filter_filter]
      apply List.filter_congr
      intro a _
      simp only [List.contains_cons, Bool.not_or]
      rw [Bool.and_comm]
    · cases localReset <;> simp [List.length_cons] <;> omega
    · cases localReset <;> simp [List.length_cons] <;> omega
    · simp

/-- Claim C4: resetAllTrans empties the transactions map, firing onReset
exactly once for each transaction present and bumping the matching destroy
counter once per transaction; a second resetAllTrans call is the identity on
the resulting state (it iterates an empty map), so two calls produce exactly
the stats delta of one. -/
theorem resetAllTrans_idempotent (localReset localReset2 : Bool) (st : ResetState) :
    resetAllTrans localReset2 (resetAllTrans localReset st) = resetAllTrans localReset st ∧
    (resetAllTrans localReset st).transactions = [] ∧
    (resetAllTrans localReset st).resetLog = st.resetLog ++ st.transactions ∧
    (resetAllTrans localReset st).cxDestroyLocal =
      st.cxDestroyLocal + (if localReset then st.transactions.length else 0) ∧
    (resetAllTrans localReset st).cxDestroyRemote =
      st.cxDestroyRemote + (if localReset then 0 else st.transactions.length) := by
  have h1 : resetAllTrans localReset st =
      { transactions := st.transactions.filter (fun x => !st.transactions.contains x)
        cxDestroyLocal := st.cxDestroyLocal + (if localReset then st.transactions.length else 0)
        cxDestroyRemote := st.cxDestroyRemote + (if localReset then 0 else st.transactions.length)
        resetLog := st.resetLog ++ st.transactions } :=
    resetAllTrans_go localReset st.transactions st
  have h2 : st.transactions.filter (fun x => !st.transactions.contains x) = [] := by
    apply List.filter_eq_nil_iff.mpr
    intro a ha
    simp [ha]
  rw [h1, h2]
  refine ⟨?_, rfl, rfl, rfl, rfl⟩
  unfold resetAllTrans
  rfl

/-! ## C5: ThreadLocalTransactionInfo::auditTimerAction (router_impl.h) -/

/-- One entry of transaction_info_map as the audit sweep sees it: the deleted
tombstone bit and the creation timestamp in milliseconds. -/
structure AuditItem where
  deleted : Bool
  timestamp : Int
  deriving DecidableEq

/-- The loop of auditTimerAction over transaction_info_map: erase tombstoned
entries; on surviving entries whose age reaches the transaction timeout, call
resetTrans (the ActiveTrans onReset) but keep the entry for this sweep.
Returns the surviving map and the transaction-ids on which resetTrans fired,
in iteration order. -/
def auditSweep (now timeout : Int) :
    List (String × AuditItem) → List (String × AuditItem) × List String
  | [] => ([], [])
  | (k, item) :: rest =>
    let r := auditSweep now timeout rest
    if item.deleted then r
    else if now - item.timestamp ≥ timeout then ((k, item) :: r.1, k :: r.2)
    else ((k, item) :: r.1, r.2)

/-- Result of one audit timer firing: the map afterwards, the resetTrans
trace, and whether enableTimer re-armed the 2-second timer. -/
structure AuditOut where
  map : List (String × AuditItem)
  resets : List String
  timerRearmed : Bool
  deriving DecidableEq

/-- ThreadLocalTransactionInfo::auditTimerAction from router_impl.h: sweep the
map, then re-arm the audit timer; enableTimer is the last statement of the
function on every path. -/
def auditTimerAction (now timeout : Int) (m : List (String × AuditItem)) : AuditOut :=
  let r := auditSweep now timeout m
  { map := r.1, resets := r.2, timerRearmed := true }

theorem auditSweep_characterize (now timeout : Int) (m : List (String × AuditItem)) :
    (auditSweep now timeout m).1 = m.filter (fun e => !e.2.deleted) ∧
    (auditSweep now timeout m).2 =
      (m.filter (fun e => !e.2.deleted && decide (now - e.2.timestamp ≥ timeout))).map
        Prod.fst := by
  induction m with
  | nil => exact ⟨rfl, rfl⟩
  | cons e rest ih =>
    obtain ⟨k, item⟩ := e
    unfold auditSweep
    by_cases hd : item.deleted
    · simp [hd, ih.1, ih.2]
    · by_cases ht : now - item.timestamp ≥ timeout
      · simp [hd, ht, ih.1, ih.2]
      · simp [hd, ht, ih.1, ih.2]

/-- Claim C5: one audit-timer firing erases exactly the entries whose deleted
flag is set; it fires resetTrans on exactly the surviving entries whose age
(now minus timestamp) is at least the transaction timeout, without erasing
them in the same sweep; and it re-arms the timer unconditionally. -/
theorem auditTimerAction_spec (now timeout : Int) (m : List (String × AuditItem)) :
    (auditTimerAction now timeout m).map = m.filter (fun e => !e.2.deleted) ∧
    (auditTimerAction now timeout m).resets =
      ((m.filter (fun e => !e.2.deleted && decide (now - e.2.timestamp ≥ timeout))).map
        Prod.fst) ∧
    (auditTimerAction now timeout m).timerRearmed = true := by
  have h := auditSweep_characterize now timeout m
  exact ⟨h.1, h.2, rfl⟩


/-! ## C7: ConnectionManager::ActiveTrans::applyDecoderFilters
(conn_manager.cc) -/

/-- Behaviour of one decoder filter under the bound filter action: the
FilterStatus it returns, and whether during the call it triggers
sendLocalReply in the flag-setting way (end_stream false), so that
local_response_sent_ is set when the call returns. -/
structure FilterBehavior where
  status : FilterStatus
  setsLocalResponseSent : Bool
  deriving DecidableEq

/-- The loop body of applyDecoderFilters from position idx: invoke each
filter; first check local_response_sent_ (break, yielding Continue), then a
non-Continue status (return it).  Returns the final status, the
local_response_sent_ flag afterwards, and the chain positions invoked, in
order. -/
def walkFilters : List FilterBehavior → Nat → FilterStatus × Bool × List Nat
  | [], _ => (FilterStatus.Continue, false, [])
  | f :: rest, idx =>
    if f.setsLocalResponseSent then (FilterStatus.Continue, true, [idx])
    else if f.status = FilterStatus.Continue then
      let r := walkFilters rest (idx + 1)
      (r.1, r.2.1, idx :: r.2.2)
    else (f.status, false, [idx])

/-- ConnectionManager::ActiveTrans::applyDecoderFilters from conn_manager.cc:
when local_response_sent_ is already set the loop body is skipped entirely and
Continue is returned; otherwise the walk starts at the head of the chain, or
just after the suspended filter when resuming (entry = next of the suspended
filter's entry). -/
def applyDecoderFilters (localResponseSent : Bool) (filters : List FilterBehavior)
    (resumeAfter : Option Nat) : FilterStatus × Bool × List Nat :=
  if localResponseSent then (FilterStatus.Continue, true, [])
  else
    let start :=
      match resumeAfter with
      | none => 0
      | some i => i + 1
    walkFilters (filters.drop start) start

/-- A filter that neither stops iteration nor sends a local reply. -/
def passesThrough (f : FilterBehavior) : Prop :=
  f.status = FilterStatus.Continue ∧ f.setsLocalResponseSent = false

instance (f : FilterBehavior) : Decidable (passesThrough f) := by
  unfold passesThrough
  infer_instance

theorem walkFilters_pass (pre : List FilterBehavior) (f : FilterBehavior)
    (post : List FilterBehavior) (idx : Nat) (hpre : ∀ g ∈ pre, passesThrough g) :
    (f.setsLocalResponseSent = true →
      walkFilters (pre ++ f :: post) idx =
        (FilterStatus.Continue, true, List.range' idx (pre.length + 1))) ∧
    (f.setsLocalResponseSent = false → f.status = FilterStatus.StopIteration →
      walkFilters (pre ++ f :: post) idx =
        (FilterStatus.StopIteration, false, List.range' idx (pre.length + 1))) := by
  induction pre generalizing idx with
  | nil =>
    refine ⟨?_, ?_⟩
    · intro hl
      simp [walkFilters, hl, List.range'_succ]
    · intro hl hs
      simp [walkFilters, hl, hs, List.range'_succ]
  | cons g pre ih =>
    have hg := hpre g (List.mem_cons_self g pre)
    have hpre2 : ∀ g2 ∈ pre, passesThrough g2 := fun g2 hmem =>
      hpre g2 (List.mem_cons_of_mem g hmem)
    have ihr := ih (idx + 1) hpre2
    refine ⟨?_, ?_⟩
    · intro hl
      rw [List.cons_append]
      unfold walkFilters
      rw [ihr.1 hl]
      simp [hg.1, hg.2, List.range'_succ]
    · intro hl hs
      rw [List.cons_append]
      unfold walkFilters
      rw [ihr.2 hl hs]
      simp [hg.1, hg.2, List.range'_succ]

theorem walkFilters_lb (l : List FilterBehavior) (idx : Nat) :
    ∀ j ∈ (walkFilters l idx).2.2, idx ≤ j := by
  induction l generalizing idx with
  | nil =>
    intro j hj
    simp [walkFilters] at hj
  | cons f rest ih =>
    intro j hj
    unfold walkFilters at hj
    by_cases hl : f.setsLocalResponseSent
    · simp [hl] at hj
      omega
    · by_cases hs : f.status = FilterStatus.Continue
      · simp [hl, hs] at hj
        rcases hj with hj | hj
        · omega
        · have := ih (idx + 1) j hj
          omega
      · simp [hl, hs] at hj
        omega

theorem walkFilters_head (l : List FilterBehavior) (idx : Nat) (hne : l ≠ []) :
    (walkFilters l idx).2.2.head? = some idx := by
  cases l with
  | nil => exact absurd rfl hne
  | cons f rest =>
    unfold walkFilters
    by_cases hl : f.setsLocalResponseSent
    · simp [hl]
    · by_cases hs : f.status = FilterStatus.Continue
      · simp [hl, hs]
      · simp [hl, hs]

/-- Claim C7: applyDecoderFilters (a) invokes no filter at all when
local_response_sent_ is already set, returning Continue; (b) on a chain whose
first non-passing filter returns StopIteration without sending a local reply,
the walk invokes exactly the filters up to and including it and returns
StopIteration; (c) on a chain whose first non-passing filter sets
local_response_sent_, the walk stops there and returns Continue regardless of
that filter status; (d) resuming after position i invokes only positions
strictly greater than i, starting exactly at i + 1 — never at the head. -/
theorem applyDecoderFilters_spec :
    (∀ filters resumeAfter,
      applyDecoderFilters true filters resumeAfter = (FilterStatus.Continue, true, [])) ∧
    (∀ pre f post, (∀ g ∈ pre, passesThrough g) →
      f.setsLocalResponseSent = false → f.status = FilterStatus.StopIteration →
      applyDecoderFilters false (pre ++ f :: post) none =
        (FilterStatus.StopIteration, false, List.range (pre.length + 1))) ∧
    (∀ pre f post, (∀ g ∈ pre, passesThrough g) →
      f.setsLocalResponseSent = true →
      applyDecoderFilters false (pre ++ f :: post) none =
        (FilterStatus.Continue, true, List.range (pre.length + 1))) ∧
    (∀ filters i j, j ∈ (applyDecoderFilters false filters (some i)).2.2 → i + 1 ≤ j) ∧
    (∀ filters i, i + 1 < filters.length →
      (applyDecoderFilters false filters (some i)).2.2.head? = some (i + 1)) := by
  refine ⟨?_, ?_, ?_, ?_, ?_⟩
  · intro filters resumeAfter
    simp [applyDecoderFilters]
  · intro pre f post hpre hl hs
    unfold applyDecoderFilters
    simp only [Bool.false_eq_true, if_neg, not_false_iff, List.drop_zero]
    rw [(walkFilters_pass pre f post 0 hpre).2 hl hs, List.range_eq_range']
  · intro pre f post hpre hl
    unfold applyDecoderFilters
    simp only [Bool.false_eq_true, if_neg, not_false_iff, List.drop_zero]
    rw [(walkFilters_pass pre f post 0 hpre).1 hl, List.range_eq_range']
  · intro filters i j hj
    unfold applyDecoderFilters at hj
    simp only [Bool.false_eq_true, if_neg, not_false_iff] at hj
    exact walkFilters_lb (filters.drop (i + 1)) (i + 1) j hj
  · intro filters i hlen
    unfold applyDecoderFilters
    simp only [Bool.false_eq_true, if_neg, not_false_iff]
    apply walkFilters_head
    intro hemp
    have := List.drop_eq_nil_iff.mp hemp
    omega

/-- Claim C7 witness: the theorem applied at concrete chains — flag already
set; a passing filter followed by a stopper; a passing filter followed by a
local-reply sender; and resumption after position 0. -/
theorem applyDecoderFilters_spec_witness :
    (applyDecoderFilters true
        [⟨FilterStatus.Continue, false⟩, ⟨FilterStatus.StopIteration, false⟩] none =
      (FilterStatus.Continue, true, [])) ∧
    (applyDecoderFilters false
        [⟨FilterStatus.Continue, false⟩, ⟨FilterStatus.StopIteration, false⟩,
         ⟨FilterStatus.Continue, false⟩] none =
      (FilterStatus.StopIteration, false, List.range 2)) ∧
    (applyDecoderFilters false
        [⟨FilterStatus.Continue, false⟩, ⟨FilterStatus.StopIteration, true⟩,
         ⟨FilterStatus.Continue, false⟩] none =
      (FilterStatus.Continue, true, List.range 2)) ∧
    (0 + 1 ≤ 1) ∧
    (applyDecoderFilters false
        [⟨FilterStatus.Continue, false⟩, ⟨FilterStatus.Continue, false⟩,
         ⟨FilterStatus.Continue, false⟩] (some 0)).2.2.head? = some 1 := by
  refine ⟨?_, ?_, ?_, ?_, ?_⟩
  · exact applyDecoderFilters_spec.1
      [⟨FilterStatus.Continue, false⟩, ⟨FilterStatus.StopIteration, false⟩] none
  · exact applyDecoderFilters_spec.2.1
      [⟨FilterStatus.Continue, false⟩] ⟨FilterStatus.StopIteration, false⟩
      [⟨FilterStatus.Continue, false⟩] (by decide) rfl rfl
  · exact applyDecoderFilters_spec.2.2.1
      [⟨FilterStatus.Continue, false⟩] ⟨FilterStatus.StopIteration, true⟩
      [⟨FilterStatus.Continue, false⟩] (by decide) rfl
  · exact applyDecoderFilters_spec.2.2.2.1
      [⟨FilterStatus.Continue, false⟩, ⟨FilterStatus.Continue, false⟩] 0 1 (by decide)
  · exact applyDecoderFilters_spec.2.2.2.2
      [⟨FilterStatus.Continue, false⟩, ⟨FilterStatus.Continue, false⟩,
       ⟨FilterStatus.Continue, false⟩] 0 (by decide)

/-! ## C3 and C6: sendLocalReply, ResponseDecoder::transportEnd,
ActiveTrans::upstreamData (conn_manager.cc) -/

/-- The slice of MessageMetadata that egress encoding observes: the raw
message bytes and the EP field (metadata.h). -/
structure Metadata where
  raw : List Char
  ep : Option (List Char)
  deriving DecidableEq

/-- MessageMetadata::setEP from metadata.h. -/
def setEP (m : Metadata) (ip : List Char) : Metadata :=
  { m with ep := some ip }

/-- The EP parameter as it appears in encoded bytes. -/
def epBytes (ip : List Char) : List Char :=
  ";ep=".toList ++ ip

/-- Modelled from the spec: EncoderImpl::encode (encoder.cc is not under
src/).  Spec section 4.1: the encoder's mandatory rewrite is
injection/replacement of the EP parameter on outbound messages; the output is
modelled as the raw bytes carrying the EP parameter when set. -/
def encode (m : Metadata) : List Char :=
  m.raw ++
    (match m.ep with
     | none => []
     | some ip => epBytes ip)

/-- One observable operation on the downstream connection. -/
inductive DownOp
  | write (bytes : List Char) (endStream : Bool)
  | close (t : CloseType)
  deriving DecidableEq

/-- DirectResponse::ResponseType: the result of DirectResponse::encode. -/
inductive ResponseType
  | SuccessReply
  | ErrorReply
  | Exception
  deriving DecidableEq

/-- The connection-manager counters touched on these paths. -/
structure Stats where
  responseSuccess : Nat
  responseError : Nat
  responseException : Nat
  response : Nat
  deriving DecidableEq

/-- No counter change. -/
def zeroStats : Stats := ⟨0, 0, 0, 0⟩

/-- The counter bumped by sendLocalReply for each DirectResponse result. -/
def statDelta : ResponseType → Stats
  | ResponseType.SuccessReply => ⟨1, 0, 0, 0⟩
  | ResponseType.ErrorReply => ⟨0, 1, 0, 0⟩
  | ResponseType.Exception => ⟨0, 0, 1, 0⟩

/-- Observable outcome of ConnectionManager::sendLocalReply: downstream
operations, counter delta, and the metadata handed to the encoder (none when
the guard dropped the reply). -/
structure LocalReplyOut where
  ops : List DownOp
  delta : Stats
  sentMeta : Option Metadata
  deriving DecidableEq

/-- ConnectionManager::sendLocalReply from conn_manager.cc: return at once
when the downstream connection state is Closed; otherwise run the direct
response encode (its ResponseType result is the respType argument), set EP to
the local IP, encode, write downstream, close with FlushWrite when end_stream,
and bump the counter matching the result. -/
def sendLocalReply (connState : ConnState) (localIp : List Char) (metadata : Metadata)
    (respType : ResponseType) (endStream : Bool) : LocalReplyOut :=
  if connState = ConnState.Closed then
    { ops := [], delta := zeroStats, sentMeta := none }
  else
    let m := setEP metadata localIp
    { ops := [DownOp.write (encode m) endStream] ++
        (if endStream then [DownOp.close CloseType.FlushWrite] else [])
      delta := statDelta respType
      sentMeta := some m }

/-- ConnectionManager::ResponseDecoder::transportEnd from conn_manager.cc:
throw an EnvoyException when the downstream connection is already Closed;
otherwise set EP to the local IP, encode, write the buffer downstream
(end_stream false) and bump the response counter. -/
def respTransportEnd (connState : ConnState) (localIp : List Char) (m : Metadata) :
    Except (List Char) (Metadata × List DownOp × Stats) :=
  if connState = ConnState.Closed then
    Except.error ("downstream connection is closed".toList)
  else
    let m2 := setEP m localIp
    Except.ok (m2, [DownOp.write (encode m2) false], { zeroStats with response := 1 })

/-- ConnectionManager::ResponseDecoder::onData from conn_manager.cc:
transportBegin (declared in conn_manager.h, which is not under src/; modelled
from the spec stage list as Continue with no downstream I/O), messageBegin and
messageEnd (Continue in conn_manager.cc), then transportEnd; onData returns
true. -/
def respOnData (connState : ConnState) (localIp : List Char) (m : Metadata) :
    Except (List Char) (Bool × Metadata × List DownOp × Stats) :=
  match respTransportEnd connState localIp m with
  | Except.error e => Except.error e
  | Except.ok (m2, ops, d) => Except.ok (true, m2, ops, d)

/-- SipFilters::ResponseStatus returned by ActiveTrans::upstreamData. -/
inductive ResponseStatus
  | Complete
  | MoreData
  | Reset
  deriving DecidableEq

/-- Observable outcome of ActiveTrans::upstreamData: status, downstream
operations, counter delta, and whether a local reply was attempted (the
sendLocalReply call reached, whether or not its guard dropped it). -/
structure UpstreamDataOut where
  status : ResponseStatus
  ops : List DownOp
  delta : Stats
  localReplyAttempted : Bool
  deriving DecidableEq

/-- ConnectionManager::ActiveTrans::upstreamData from conn_manager.cc: run
the response decoder; a true result is a completed response.  The
EnvoyException thrown on a closed downstream is caught and handed to onError:
with the transaction metadata present, onError attempts
sendLocalReply(AppException(ProtocolError), true); without it, onError
deferred-destroys the transaction and closes the connection NoFlush.  Either
way upstreamData returns Reset. -/
def upstreamData (connState : ConnState) (localIp : List Char)
    (transMetadata : Option Metadata) (respMetadata : Metadata) : UpstreamDataOut :=
  match respOnData connState localIp respMetadata with
  | Except.ok (_, _, ops, d) =>
    { status := ResponseStatus.Complete, ops := ops, delta := d,
      localReplyAttempted := false }
  | Except.error _ =>
    match transMetadata with
    | some m =>
      let r := sendLocalReply connState localIp m ResponseType.Exception true
      { status := ResponseStatus.Reset, ops := r.ops, delta := r.delta,
        localReplyAttempted := true }
    | none =>
      { status := ResponseStatus.Reset, ops := [DownOp.close CloseType.NoFlush],
        delta := zeroStats, localReplyAttempted := false }

/-- Claim C3 counterexample: with the downstream connection Closed and the
transaction metadata present (as it always is on the response path),
upstreamData does attempt a local reply — transportEnd throws, the catch
branch calls onError, which calls sendLocalReply — refuting the conjunct that
no local reply is attempted; the attempt is then suppressed by the
closed-connection guard, so no downstream operation happens. -/
theorem upstreamData_closed_counterexample :
    (upstreamData ConnState.Closed ("127.0.0.1".toList)
        (some ⟨"INVITE".toList, none⟩) ⟨"SIP/2.0 200 OK".toList, none⟩).localReplyAttempted
      = true ∧
    (upstreamData ConnState.Closed ("127.0.0.1".toList)
        (some ⟨"INVITE".toList, none⟩) ⟨"SIP/2.0 200 OK".toList, none⟩).ops = [] := by
  constructor <;> rfl

/-- Claim C3 as amended: when the downstream connection is Closed and the
transaction metadata is present, the upstream response is dropped with no
observable downstream effect — transportEnd throws instead of writing,
upstreamData catches the exception and attempts a local error reply, and the
closed-connection guard of sendLocalReply suppresses it — so nothing is
written, the connection is not closed or otherwise manipulated, no counter
changes, and upstreamData reports Reset. -/
theorem upstreamData_closed_drops (localIp : List Char) (tm rm : Metadata) :
    upstreamData ConnState.Closed localIp (some tm) rm =
      { status := ResponseStatus.Reset, ops := [], delta := zeroStats,
        localReplyAttempted := true } := by
  rfl

/-- Claim C6: on a non-Closed downstream connection, both egress paths of
this layer set EP to the local IP before the encoder runs, so the encoded
bytes written downstream carry the EP parameter with the local IP:
sendLocalReply writes exactly the encoded reply whose EP is the local IP (and
its metadata snapshot records that EP), and ResponseDecoder::transportEnd
succeeds, writing exactly the encoded response whose EP is the local IP. -/
theorem egress_ep_rewrite (connState : ConnState) (localIp : List Char)
    (m1 m2 : Metadata) (respType : ResponseType) (endStream : Bool)
    (h : connState ≠ ConnState.Closed) :
    ((sendLocalReply connState localIp m1 respType endStream).ops.head? =
        some (DownOp.write (m1.raw ++ epBytes localIp) endStream) ∧
      (sendLocalReply connState localIp m1 respType endStream).sentMeta =
        some { raw := m1.raw, ep := some localIp }) ∧
    respTransportEnd connState localIp m2 =
      Except.ok ({ raw := m2.raw, ep := some localIp },
        [DownOp.write (m2.raw ++ epBytes localIp) false],
        { zeroStats with response := 1 }) := by
  refine ⟨⟨?_, ?_⟩, ?_⟩ <;>
    simp [sendLocalReply, respTransportEnd, h, setEP, encode]

/-- Claim C6 witness: the theorem applied on an Open connection with local IP
127.0.0.1. -/
theorem egress_ep_rewrite_witness :
    ((sendLocalReply ConnState.Open ("127.0.0.1".toList) ⟨"SIP/2.0 503".toList, none⟩
          ResponseType.ErrorReply false).ops.head? =
        some (DownOp.write ("SIP/2.0 503".toList ++ epBytes ("127.0.0.1".toList)) false) ∧
      (sendLocalReply ConnState.Open ("127.0.0.1".toList) ⟨"SIP/2.0 503".toList, none⟩
          ResponseType.ErrorReply false).sentMeta =
        some { raw := "SIP/2.0 503".toList, ep := some ("127.0.0.1".toList) }) ∧
    respTransportEnd ConnState.Open ("127.0.0.1".toList) ⟨"SIP/2.0 200 OK".toList, none⟩ =
      Except.ok ({ raw := "SIP/2.0 200 OK".toList, ep := some ("127.0.0.1".toList) },
        [DownOp.write ("SIP/2.0 200 OK".toList ++ epBytes ("127.0.0.1".toList)) false],
        { zeroStats with response := 1 }) :=
  egress_ep_rewrite ConnState.Open ("127.0.0.1".toList)
    ⟨"SIP/2.0 503".toList, none⟩ ⟨"SIP/2.0 200 OK".toList, none⟩
    ResponseType.ErrorReply false (by decide)

/-! ## C9: ConnectionManager::complete, RetrieveLskpmcResp arm
(conn_manager.cc) -/

/-- Observable outcome of the RetrieveLskpmcResp arm of
ConnectionManager::complete: the decoder metadata destination afterwards, the
PCookieIPMap afterwards, the trace of setDestination calls in order, and
whether continueHanding re-drove the decoder. -/
structure RetrieveOut where
  dest : Option String
  pMap : List (String × String)
  destTrace : List String
  continueHandingCalled : Bool
  deriving DecidableEq

/-- One iteration of the loop over the response lskpmcs map: pairs with an
empty host are skipped; for a non-empty host, setDestination on the current
metadata and emplace into PCookieIPMap (PCookieIPMap is declared outside src/;
the spec describes it as a token-to-address mapping, so its emplace keeps an
existing entry, as every C++ map emplace does). -/
def retrieveStep (acc : Option String × List (String × String) × List String)
    (item : String × String) : Option String × List (String × String) × List String :=
  if item.2.isEmpty then acc
  else (some item.2, emplaceKV acc.2.1 item, acc.2.2 ++ [item.2])

/-- The RetrieveLskpmcResp arm of ConnectionManager::complete from
conn_manager.cc: iterate the key-to-host pairs of the response, then call
continueHanding unconditionally. -/
def completeRetrieve (lskpmcs : List (String × String)) (dest0 : Option String)
    (pMap0 : List (String × String)) : RetrieveOut :=
  let r := lskpmcs.foldl retrieveStep (dest0, pMap0, [])
  { dest := r.1, pMap := r.2.1, destTrace := r.2.2, continueHandingCalled := true }

/-- The last of a list of destination values, the initial value when none. -/
def lastSome (d0 : Option String) : List String → Option String
  | [] => d0
  | v :: rest => lastSome (some v) rest

theorem completeRetrieve_go (l : List (String × String)) (d0 : Option String)
    (pm0 : List (String × String)) (tr0 : List String) :
    l.foldl retrieveStep (d0, pm0, tr0) =
      (lastSome d0 ((l.filter (fun p => !p.2.isEmpty)).map Prod.snd),
       (l.filter (fun p => !p.2.isEmpty)).foldl emplaceKV pm0,
       tr0 ++ (l.filter (fun p => !p.2.isEmpty)).map Prod.snd) := by
  induction l generalizing d0 pm0 tr0 with
  | nil => simp [lastSome]
  | cons p rest ih =>
    rw [List.foldl_cons]
    by_cases hp : p.2.isEmpty
    · rw [show retrieveStep (d0, pm0, tr0) p = (d0, pm0, tr0) by simp [retrieveStep, hp]]
      rw [ih]
      simp [hp]
    · rw [show retrieveStep (d0, pm0, tr0) p =
        (some p.2, emplaceKV pm0 p, tr0 ++ [p.2]) by simp [retrieveStep, hp]]
      rw [ih]
      simp [hp, lastSome]

theorem foldl_emplace_preserve {α β : Type} [DecidableEq α] (ps : List (α × β))
    (pm0 : List (α × β)) (k : α) (v : β) (h : alookup pm0 k = some v) :
    alookup (ps.foldl emplaceKV pm0) k = some v := by
  induction ps generalizing pm0 with
  | nil => exact h
  | cons q ps ih =>
    rw [List.foldl_cons]
    exact ih (emplaceKV pm0 q) (alookup_emplace_preserve pm0 q k v h)

theorem foldl_emplace_isSome {α β : Type} [DecidableEq α] (ps : List (α × β))
    (pm0 : List (α × β)) (k : α) (h : (alookup pm0 k).isSome) :
    (alookup (ps.foldl emplaceKV pm0) k).isSome := by
  cases hl : alookup pm0 k with
  | none => rw [hl] at h; exact absurd h (by simp)
  | some v => rw [foldl_emplace_preserve ps pm0 k v hl]; rfl

theorem foldl_emplace_mem {α β : Type} [DecidableEq α] (ps : List (α × β))
    (pm0 : List (α × β)) : ∀ p ∈ ps, (alookup (ps.foldl emplaceKV pm0) p.1).isSome := by
  induction ps generalizing pm0 with
  | nil => intro p hp; simp at hp
  | cons q ps ih =>
    intro p hp
    rw [List.foldl_cons]
    rcases List.mem_cons.mp hp with hq | hmem
    · subst hq
      exact foldl_emplace_isSome ps (emplaceKV pm0 p) p.1 (alookup_emplace_self pm0 p)
    · exact ih (emplaceKV pm0 q) p hmem

/-- Claim C9 counterexample: when the response carries a pair whose key is
already in PCookieIPMap with a different host, the pair is not inserted —
map emplace keeps the existing entry — refuting the conjunct that every
non-empty pair is inserted into PCookieIPMap; the destination is still set
to the new host and the decoder is still re-driven. -/
theorem completeRetrieve_counterexample :
    (completeRetrieve [("k1", "10.0.0.2")] none [("k1", "10.0.0.1")]).pMap
      = [("k1", "10.0.0.1")] ∧
    ("k1", "10.0.0.2") ∉
      (completeRetrieve [("k1", "10.0.0.2")] none [("k1", "10.0.0.1")]).pMap ∧
    (completeRetrieve [("k1", "10.0.0.2")] none [("k1", "10.0.0.1")]).dest
      = some "10.0.0.2" ∧
    (completeRetrieve [("k1", "10.0.0.2")] none [("k1", "10.0.0.1")]).continueHandingCalled
      = true := by decide

/-- Claim C9 as amended: on RetrieveLskpmcResp, every key-to-host pair with a
non-empty host sets the current metadata destination to that host (in
iteration order, the last one surviving) and is emplaced into PCookieIPMap —
inserted when its key is absent, while an existing entry for the key is kept
unchanged; pairs with empty hosts touch neither the destination nor the map;
and the decoder is re-driven unconditionally afterwards. -/
theorem completeRetrieve_spec (lskpmcs : List (String × String)) (dest0 : Option String)
    (pMap0 : List (String × String)) :
    (completeRetrieve lskpmcs dest0 pMap0).destTrace =
      (lskpmcs.filter (fun p => !p.2.isEmpty)).map Prod.snd ∧
    (completeRetrieve lskpmcs dest0 pMap0).dest =
      lastSome dest0 ((lskpmcs.filter (fun p => !p.2.isEmpty)).map Prod.snd) ∧
    (completeRetrieve lskpmcs dest0 pMap0).pMap =
      (lskpmcs.filter (fun p => !p.2.isEmpty)).foldl emplaceKV pMap0 ∧
    (∀ k v, alookup pMap0 k = some v →
      alookup (completeRetrieve lskpmcs dest0 pMap0).pMap k = some v) ∧
    (∀ p ∈ lskpmcs, p.2.isEmpty = false →
      (alookup (completeRetrieve lskpmcs dest0 pMap0).pMap p.1).isSome) ∧
    (completeRetrieve lskpmcs dest0 pMap0).continueHandingCalled = true := by
  have hgo := completeRetrieve_go lskpmcs dest0 pMap0 []
  have h1 : completeRetrieve lskpmcs dest0 pMap0 =
      { dest := lastSome dest0 ((lskpmcs.filter (fun p => !p.2.isEmpty)).map Prod.snd)
        pMap := (lskpmcs.filter (fun p => !p.2.isEmpty)).foldl emplaceKV pMap0
        destTrace := (lskpmcs.filter (fun p => !p.2.isEmpty)).map Prod.snd
        continueHandingCalled := true } := by
    unfold completeRetrieve
    rw [hgo]
    simp
  rw [h1]
  refine ⟨rfl, rfl, rfl, ?_, ?_, rfl⟩
  · intro k v hk
    exact foldl_emplace_preserve (lskpmcs.filter (fun p => !p.2.isEmpty)) pMap0 k v hk
  · intro p hp hne
    apply foldl_emplace_mem (lskpmcs.filter (fun p => !p.2.isEmpty)) pMap0 p
    apply List.mem_filter.mpr
    exact ⟨hp, by simp [hne]⟩

/-- Claim C9 witness: the amended theorem applied at a response holding an
empty-host pair and a fresh non-empty pair, over a map with one existing
entry. -/
theorem completeRetrieve_spec_witness :
    alookup (completeRetrieve [("k1", ""), ("k2", "10.0.0.9")] none
        [("k0", "10.0.0.1")]).pMap "k0" = some "10.0.0.1" ∧
    (alookup (completeRetrieve [("k1", ""), ("k2", "10.0.0.9")] none
        [("k0", "10.0.0.1")]).pMap "k2").isSome :=
  ⟨(completeRetrieve_spec [("k1", ""), ("k2", "10.0.0.9")] none
      [("k0", "10.0.0.1")]).2.2.2.1 "k0" "10.0.0.1" (by decide),
   (completeRetrieve_spec [("k1", ""), ("k2", "10.0.0.9")] none
      [("k0", "10.0.0.1")]).2.2.2.2.1 ("k2", "10.0.0.9") (by decide) (by decide)⟩

end SipProxy
